import Mathlib

/-!
Verification development for the YouTube-to-Spotify playlist migrator
(`youtube_to_spotify.py`).  The core pipeline — title parsing, channel-name
cleaning, confidence scoring, multi-strategy search fallback, per-item
orchestration, statistics, and playlist batching — is embedded shallowly.

Strings are modelled as Lean `String` / `List Char`.  The regular expressions
of `TitleParser` are embedded as explicit backtracking matchers that follow
the Python `re` engine (lazy / greedy group semantics) for each concrete
pattern.  `parse_title` only ever applies the patterns to the output of
`clean_text`, which collapses every whitespace run to a single space and
strips the ends, so the matcher inputs never contain a newline; the embedded
matchers treat `.` as "not a newline" and `$` as end of input, which agrees
with Python on all such inputs.

Python floats are modelled as exact rationals (`ℚ`); machine rounding of
`0.7` / `0.3` is immaterial to the stated properties.  Network collaborators
(the Spotify query endpoint, the playlist POST endpoint) are parameters of
the embedded functions, as in the spec's collaborator contracts.
-/

/-- Python `\s` character class, ASCII part (the inputs of interest are
ASCII; rare non-ASCII Unicode whitespace is not modelled). -/
def isPySpace (c : Char) : Bool :=
  c = ' ' || c = '\t' || c = '\n' || c = '\r' || c = '\x0b' || c = '\x0c'

/-- Python `str.strip()` on a character list: drop whitespace from both ends. -/
def stripL (l : List Char) : List Char :=
  ((l.dropWhile isPySpace).reverse.dropWhile isPySpace).reverse

/-- Python `str.endswith` on character lists. -/
def endsWithL (s suffixL : List Char) : Bool :=
  suffixL.isSuffixOf s

/-! ### `TitleParser.clean_text` -/

/-- Index of the first `closeC` in the list, provided no newline occurs
before it (Python `.` in `\[.*?\]` does not match a newline, so a bracketed
segment containing a newline is not a match). -/
def findClose (closeC : Char) : List Char → Option Nat
  | [] => none
  | c :: rest =>
    if c = closeC then some 0
    else if c = '\n' then none
    else (findClose closeC rest).map (· + 1)

/-- One pass of `re.sub(r'\[.*?\]', '', text)` (resp. parentheses):
leftmost-shortest bracketed segments are removed, scanning left to right.
Fuel-driven so that the definition evaluates by `decide`; the initial fuel
`s.length` always suffices since every step consumes at least one input
character. -/
def stripEnclosedGo (openC closeC : Char) : Nat → List Char → List Char
  | 0, s => s
  | _, [] => []
  | fuel + 1, c :: rest =>
    if c = openC then
      match findClose closeC rest with
      | some j => stripEnclosedGo openC closeC fuel (rest.drop (j + 1))
      | none => c :: stripEnclosedGo openC closeC fuel rest
    else c :: stripEnclosedGo openC closeC fuel rest

/-- `re.sub(r'\[.*?\]', '', text)` for the given delimiter pair. -/
def stripEnclosed (openC closeC : Char) (s : List Char) : List Char :=
  stripEnclosedGo openC closeC s.length s

/-- Case-insensitive keyword test at the head of the input (`kw` is given in
lowercase; models `re.IGNORECASE` on the ASCII keywords `feat.` / `ft.` /
`featuring`). -/
def startsWithCI : List Char → List Char → Bool
  | [], _ => true
  | _ :: _, [] => false
  | k :: ks, c :: cs => (c.toLower = k) && startsWithCI ks cs

/-- The alternation `(feat\.|ft\.|featuring)` of `clean_text`, tried in the
written order at the current position; returns the input past the keyword. -/
def featKeyword (s : List Char) : Option (List Char) :=
  ["feat.".data, "ft.".data, "featuring".data].findSome? fun kw =>
    if startsWithCI kw s then some (s.drop kw.length) else none

/-- Backtracking of `\s+` in `(feat\.|ft\.|featuring)\s+.+` when nothing
follows the whitespace run `w`: the engine shortens `\s+` (largest split
first) until `.+` can take at least one non-newline character; what remains
after the match is everything from the first newline onwards. -/
def featBtAux (w : List Char) : Nat → Option (List Char)
  | 0 => none
  | n + 1 =>
    match (w.drop (n + 1)).head? with
    | some c =>
      if c = '\n' then featBtAux w n
      else some ((w.drop (n + 1)).dropWhile (fun x => x != '\n'))
    | none => featBtAux w n

/-- Match `\s+.+` at the head of `t` (the part after the `feat` keyword),
returning the unmatched remainder: `\s+` is greedy, then `.+` greedily takes
non-newline characters. -/
def featTail (t : List Char) : Option (List Char) :=
  let w := t.takeWhile isPySpace
  let r := t.drop w.length
  if w.isEmpty then none
  else if !r.isEmpty then some (r.dropWhile (fun x => x != '\n'))
  else featBtAux w (w.length - 1)

/-- Whole-pattern attempt of `(feat\.|ft\.|featuring)\s+.+` at the current
position; on success returns the remainder after the matched span. -/
def tryFeatAt (s : List Char) : Option (List Char) :=
  match featKeyword s with
  | some t => featTail t
  | none => none

/-- `re.sub(r'(feat\.|ft\.|featuring)\s+.+', '', text, flags=re.IGNORECASE)`:
left-to-right scan replacing each non-overlapping match with nothing.
Fuel-driven (initial fuel `s.length` suffices: each step consumes at least
one character). -/
def stripFeatGo : Nat → List Char → List Char
  | 0, s => s
  | _, [] => []
  | fuel + 1, c :: rest =>
    match tryFeatAt (c :: rest) with
    | some remainder => stripFeatGo fuel remainder
    | none => c :: stripFeatGo fuel rest

/-- The `feat`-clause removal step of `clean_text`. -/
def stripFeat (s : List Char) : List Char :=
  stripFeatGo s.length s

/-- `re.sub(r'\s+', ' ', text)`: collapse each whitespace run to a single
space (structural, tracking whether the previous character was whitespace). -/
def collapseWsGo (prevSpace : Bool) : List Char → List Char
  | [] => []
  | c :: cs =>
    if isPySpace c then
      if prevSpace then collapseWsGo true cs
      else ' ' :: collapseWsGo true cs
    else c :: collapseWsGo false cs

/-- Whitespace-run collapsing of `clean_text`. -/
def collapseWs (l : List Char) : List Char :=
  collapseWsGo false l

/-- `TitleParser.clean_text`: strip `[...]`, then `(...)`, then a
`feat.`/`ft.`/`featuring` clause, then normalize whitespace and trim. -/
def cleanText (text : List Char) : List Char :=
  stripL (collapseWs (stripFeat (stripEnclosed '(' ')' (stripEnclosed '[' ']' text))))

/-! ### The ordered separator patterns of `TitleParser.parse_title` -/

/-- Does `(.+)$` match exactly this list: nonempty and newline-free. -/
def dotPlusOk (l : List Char) : Bool :=
  !l.isEmpty && l.all (fun c => c != '\n')

/-- Match `\s*(.+)$` on `t`, where `k` is the current (greedy, backtracking
downwards) number of whitespace characters consumed by `\s*`; returns the
group captured by `(.+)`. -/
def starTail (t : List Char) : Nat → Option (List Char)
  | 0 => if dotPlusOk t then some t else none
  | k + 1 =>
    if dotPlusOk (t.drop (k + 1)) then some (t.drop (k + 1))
    else starTail t k

/-- Match `\s*SEP\s*(.+)$` on `rest` (the input after the lazy first group).
`\s*` before the separator is effectively deterministic: the separator is
never itself whitespace, so only the position after the full whitespace run
can carry it. -/
def sepTail (sep : Char) (rest : List Char) : Option (List Char) :=
  match rest.dropWhile isPySpace with
  | [] => none
  | c :: t => if c = sep then starTail t (t.takeWhile isPySpace).length else none

/-- Match `\s+(.+)$` on `t`: at least one whitespace character, greedy with
backtracking down to one. -/
def plusTailGo (t : List Char) : Nat → Option (List Char)
  | 0 => none
  | k + 1 =>
    if dotPlusOk (t.drop (k + 1)) then some (t.drop (k + 1))
    else plusTailGo t k

/-- Match `\s+(.+)$` on `t`: `\s+` greedily takes the whole whitespace run
`k` and backtracks down to one character. -/
def plusTail (t : List Char) : Option (List Char) :=
  let k := (t.takeWhile isPySpace).length
  if k = 0 then none else plusTailGo t k

/-- Match `\s+by\s+(.+)$` on `rest` (`by` case-insensitively, as under
`re.IGNORECASE`).  The `\s+` before `by` is deterministic: shorter whitespace
splits would have to place a whitespace character where `b` is required. -/
def byTail (rest : List Char) : Option (List Char) :=
  let w := rest.takeWhile isPySpace
  if w.isEmpty then none
  else
    match rest.drop w.length with
    | b :: y :: t =>
      if b.toLower = 'b' ∧ y.toLower = 'y' then plusTail t else none
    | _ => none

/-- The ASCII or U+201C opening quote of the quoted pattern. -/
def isOpenQuote (c : Char) : Bool :=
  c = '"' || c = Char.ofNat 0x201C

/-- The ASCII or U+201D closing quote of the quoted pattern. -/
def isCloseQuote (c : Char) : Bool :=
  c = '"' || c = Char.ofNat 0x201D

/-- Match `\s*["“](.+?)["”]$` on `rest`: because of the trailing `$`, the
closing quote must be the final character; the lazy group is then forced to
be everything strictly between the opening quote and that final character
(nonempty, newline-free). -/
def quoteTail (rest : List Char) : Option (List Char) :=
  match rest.dropWhile isPySpace with
  | [] => none
  | c :: t =>
    if isOpenQuote c then
      match t.getLast? with
      | some lastc =>
        if isCloseQuote lastc && dotPlusOk t.dropLast then some t.dropLast else none
      | none => none
    else none

/-- Generic driver for a pattern of shape `^(.+?)TAIL`: the lazy first group
grows one character at a time (never across a newline) until the tail
matcher succeeds on the remainder; returns (first group, tail group). -/
def groupSplitGo (tailFn : List Char → Option (List Char)) (acc : List Char) :
    List Char → Option (List Char × List Char)
  | [] => none
  | c :: rest =>
    if c = '\n' then none
    else
      match tailFn rest with
      | some b => some (acc ++ [c], b)
      | none => groupSplitGo tailFn (acc ++ [c]) rest

/-- Run a `^(.+?)TAIL` pattern against a whole input. -/
def regexSplit (tailFn : List Char → Option (List Char)) (s : List Char) :
    Option (List Char × List Char) :=
  groupSplitGo tailFn [] s

/-- `^(.+?)\s*SEP\s*(.+)$` for a literal separator character. -/
def sepSplit (sep : Char) (s : List Char) : Option (List Char × List Char) :=
  regexSplit (sepTail sep) s

/-- `^(.+?)\s+by\s+(.+)$` (groups in written order: song-side first). -/
def bySplit (s : List Char) : Option (List Char × List Char) :=
  regexSplit byTail s

/-- `^(.+?)\s*["“](.+?)["”]$`. -/
def quoteSplit (s : List Char) : Option (List Char × List Char) :=
  regexSplit quoteTail s

/-- `TitleParser.parse_title` on character lists: clean the title, try the
five patterns in order (`-`, `:`, `by` with swapped groups, `|`, quotes),
strip the captured groups, and fall back to `("", cleaned)`. -/
def parseTitleL (title : List Char) : List Char × List Char :=
  let t := cleanText title
  match sepSplit '-' t with
  | some (a, b) => (stripL a, stripL b)
  | none =>
  match sepSplit ':' t with
  | some (a, b) => (stripL a, stripL b)
  | none =>
  match bySplit t with
  | some (a, b) => (stripL b, stripL a)
  | none =>
  match sepSplit '|' t with
  | some (a, b) => (stripL a, stripL b)
  | none =>
  match quoteSplit t with
  | some (a, b) => (stripL a, stripL b)
  | none => ([], t)

/-- `TitleParser.parse_title` on strings: returns (artist, song title). -/
def parseTitle (title : String) : String × String :=
  let p := parseTitleL title.data
  (String.mk p.1, String.mk p.2)

/-- True when some separator pattern matches the (already cleaned) text. -/
def anyPatternMatches (t : List Char) : Bool :=
  (sepSplit '-' t).isSome || (sepSplit ':' t).isSome || (bySplit t).isSome ||
    (sepSplit '|' t).isSome || (quoteSplit t).isSome

/-! ### `PlaylistMigrator._clean_channel_name` -/

/-- The suffix list of `_clean_channel_name`, in source order. -/
def suffixesToRemove : List (List Char) :=
  ["Official".data, "OFFICIAL".data, "Records".data, "RECORDS".data,
   "Music".data, "MUSIC".data, "Channel".data, "CHANNEL".data,
   "TV".data, "VEVO".data, "vevo".data]

/-- One iteration of the suffix loop: strip `' ' + suffix` if the name ends
with it, else strip the bare `suffix` if the name ends with it, else keep. -/
def stripSuffix1 (cleaned suffixL : List Char) : List Char :=
  if endsWithL cleaned (' ' :: suffixL) then
    cleaned.take (cleaned.length - (suffixL.length + 1))
  else if endsWithL cleaned suffixL then
    cleaned.take (cleaned.length - suffixL.length)
  else cleaned

/-- `PlaylistMigrator._clean_channel_name` on character lists. -/
def cleanChannelNameL (channel : List Char) : List Char :=
  if channel = [] then []
  else stripL (suffixesToRemove.foldl stripSuffix1 channel)

/-- `PlaylistMigrator._clean_channel_name` on strings. -/
def cleanChannelName (channel : String) : String :=
  String.mk (cleanChannelNameL channel.data)

/-! ### `FuzzyMatcher` -/

/-- Levenshtein distance with substitution cost 2 (fuel-driven so concrete
instances reduce by `decide`; the initial fuel `|xs| + |ys|` always
suffices).  Modelled from the spec: this is the edit-distance metric behind
the external `fuzzywuzzy` collaborator's `fuzz.ratio`, whose implementation
is not part of this repository. -/
def lev2Go : Nat → List Char → List Char → Nat
  | 0, xs, ys => xs.length + ys.length
  | _, [], ys => ys.length
  | _, x :: xs, [] => (x :: xs).length
  | fuel + 1, x :: xs, y :: ys =>
    if x = y then lev2Go fuel xs ys
    else
      min (lev2Go fuel xs (y :: ys) + 1)
        (min (lev2Go fuel (x :: xs) ys + 1) (lev2Go fuel xs ys + 2))

/-- Substitution-cost-2 Levenshtein distance. -/
def lev2 (xs ys : List Char) : Nat :=
  lev2Go (xs.length + ys.length) xs ys

/-- Modelled from the spec: the external `fuzz.ratio` collaborator — a
normalized edit-distance similarity on a 0–100 scale (two empty strings are
a perfect match; rounding is to the nearest integer). -/
def fuzzRatio (a b : List Char) : Nat :=
  let s := a.length + b.length
  if s = 0 then 100
  else (200 * (s - lev2 a b) + s) / (2 * s)

/-- Python `str.lower()` (ASCII case folding) applied to a string's
characters, as fed to `fuzz.ratio`. -/
def lowerStr (s : String) : List Char :=
  s.data.map Char.toLower

/-- `FuzzyMatcher.calculate_match_confidence`: zero when either original
field is empty, else the weighted similarity `(0.7·title + 0.3·artist)/100`
(floats modelled as exact rationals). -/
def calculateMatchConfidence (originalArtist originalTitle spotifyArtist spotifyTitle : String) : ℚ :=
  if originalArtist = "" ∨ originalTitle = "" then 0
  else
    let artistScore : ℚ := fuzzRatio (lowerStr originalArtist) (lowerStr spotifyArtist)
    let titleScore : ℚ := fuzzRatio (lowerStr originalTitle) (lowerStr spotifyTitle)
    (titleScore * (7 / 10) + artistScore * (3 / 10)) / 100

/-- `FuzzyMatcher.is_good_match`: inclusive threshold comparison. -/
def isGoodMatch (confidence threshold : ℚ) : Bool :=
  decide (confidence ≥ threshold)

/-- `is_good_match` at its default threshold `0.5`. -/
def isGoodMatchDefault (confidence : ℚ) : Bool :=
  isGoodMatch confidence (1 / 2)

/-! ### Data model -/

/-- The `Song` dataclass. -/
structure Song where
  original_title : String
  channel_name : String
  artist : String
  title : String
  spotify_uri : String
  match_confidence : ℚ
  error : String
  found : Bool
deriving DecidableEq, Repr

/-- The `MigrationStats` dataclass (counters only; the wall-clock
`start_time` / `end_time` fields are not modelled). -/
structure MigrationStats where
  total_songs : Nat
  successful_matches : Nat
  not_found : Nat
  errors : Nat
deriving DecidableEq, Repr

/-- One entry of the extracted video list: `{'title': ..., 'channel': ...}`. -/
structure VideoEntry where
  title : String
  channel : String
deriving DecidableEq, Repr

/-- The fields of a Spotify search hit that the core reads:
`track['artists'][0]['name']`, `track['name']`, `track['uri']`. -/
structure SpotifyTrack where
  artistName : String
  name : String
  uri : String
deriving DecidableEq, Repr

/-! ### `SpotifyManager.search_track` and `PlaylistMigrator._enhanced_spotify_search`

The network boundary is `_search_with_query`; it is passed in as the
collaborator parameter `sq : String → Option SpotifyTrack` (query string to
best hit), per the spec's external-interface contract. -/

/-- `SpotifyManager.search_track`: three query formulations tried in order,
first hit wins. -/
def searchTrack (sq : String → Option SpotifyTrack) (artist title : String) :
    Option SpotifyTrack :=
  let r1 := if artist ≠ "" ∧ title ≠ "" then
              sq ("artist:\"" ++ artist ++ "\" track:\"" ++ title ++ "\"")
            else none
  match r1 with
  | some t => some t
  | none =>
    let r2 := if artist ≠ "" ∧ title ≠ "" then
                sq ("\"" ++ artist ++ "\" \"" ++ title ++ "\"")
              else none
    match r2 with
    | some t => some t
    | none => if title ≠ "" then sq ("\"" ++ title ++ "\"") else none

/-- `PlaylistMigrator._enhanced_spotify_search`: parsed artist first, then
the cleaned channel name (when distinct from the artist and nonempty), then
title only. -/
def enhancedSpotifySearch (sq : String → Option SpotifyTrack)
    (artist title channel : String) : Option SpotifyTrack :=
  let r1 := if artist ≠ "" ∧ title ≠ "" then searchTrack sq artist title else none
  match r1 with
  | some t => some t
  | none =>
    let r2 := if channel ≠ "" ∧ channel ≠ artist ∧ title ≠ "" then
                (let cc := cleanChannelName channel
                 if cc ≠ "" then searchTrack sq cc title else none)
              else none
    match r2 with
    | some t => some t
    | none => if title ≠ "" then searchTrack sq "" title else none

/-! ### `PlaylistMigrator._process_song` -/

/-- The working artist of `_process_song`: the parsed artist, or the cleaned
channel name when no artist was parsed and a channel is present. -/
def workingArtist (e : VideoEntry) : String :=
  let parsedArtist := (parseTitle e.title).1
  if parsedArtist = "" ∧ e.channel ≠ "" then cleanChannelName e.channel
  else parsedArtist

/-- The parsed song title of `_process_song`. -/
def parsedSongTitle (e : VideoEntry) : String :=
  (parseTitle e.title).2

/-- Two-decimal rendering of a confidence value, for the low-confidence
message (`f"{confidence:.2f}"`; rounding to the nearest hundredth). -/
def formatConf (q : ℚ) : String :=
  let n := (q * 100 + 1 / 2).floor.toNat
  toString (n / 100) ++ "." ++ (if n % 100 < 10 then "0" else "") ++ toString (n % 100)

/-- The error message recorded for a rejected low-confidence match. -/
def lowConfMessage (q : ℚ) : String :=
  "Low confidence match (" ++ formatConf q ++ ")"

/-- `PlaylistMigrator._process_song` with the search collaborator as a
parameter.  The collaborator is modelled as non-throwing (it returns `none`
on "no result", per the spec's contract), so the per-item exception handler
of the source is never entered. -/
def processSong (sq : String → Option SpotifyTrack) (e : VideoEntry) : Song :=
  let artist := workingArtist e
  let songTitle := parsedSongTitle e
  match enhancedSpotifySearch sq artist songTitle e.channel with
  | some tr =>
    let confidence := calculateMatchConfidence artist songTitle tr.artistName tr.name
    let found := isGoodMatchDefault confidence
    { original_title := e.title, channel_name := e.channel,
      artist := artist, title := songTitle, spotify_uri := tr.uri,
      match_confidence := confidence,
      error := if found then "" else lowConfMessage confidence,
      found := found }
  | none =>
    { original_title := e.title, channel_name := e.channel,
      artist := artist, title := songTitle, spotify_uri := "",
      match_confidence := 0, error := "No matches found on Spotify",
      found := false }

/-! ### `PlaylistMigrator.migrate_playlist`: statistics and commit set -/

/-- The per-song statistics update of the migration loop:
`found` → successful match, else a nonempty `error` → error, else not found. -/
def tallySong (st : MigrationStats) (s : Song) : MigrationStats :=
  if s.found then { st with successful_matches := st.successful_matches + 1 }
  else if s.error ≠ "" then { st with errors := st.errors + 1 }
  else { st with not_found := st.not_found + 1 }

/-- The per-item portion of `migrate_playlist`: process every extracted
video in order and accumulate statistics (`total_songs` is set to the number
of extracted videos up front). -/
def runMigration (sq : String → Option SpotifyTrack) (videos : List VideoEntry) :
    List Song × MigrationStats :=
  let songs := videos.map (processSong sq)
  (songs, songs.foldl tallySong ⟨videos.length, 0, 0, 0⟩)

/-- The commit set of `migrate_playlist`:
`[song.spotify_uri for song in songs if song.found]`. -/
def commitSet (songs : List Song) : List String :=
  (songs.filter (fun s => s.found)).map (fun s => s.spotify_uri)

/-! ### `SpotifyManager.add_tracks_to_playlist` -/

/-- Partition a URI list into consecutive slices of (at most) 100, as the
loop `for i in range(0, len(track_uris), 100)` does.  Fuel-driven; the
initial fuel `l.length` always suffices since each step removes 100 > 0
elements. -/
def chunks100Go : Nat → List String → List (List String)
  | 0, _ => []
  | _, [] => []
  | fuel + 1, u :: rest => ((u :: rest).take 100) :: chunks100Go fuel ((u :: rest).drop 100)

/-- The batch decomposition used by `add_tracks_to_playlist`. -/
def chunks100 (l : List String) : List (List String) :=
  chunks100Go l.length l

/-- Submit the batches in order.  `req i b` is the truthiness of the result
of the i-th POST of batch `b` (`_make_request` returning `None` — or a falsy
empty body — makes the loop return `False` immediately).  Alongside the
boolean result, the list of performed submissions with their outcomes is
returned as an observation trace. -/
def addBatches (req : Nat → List String → Bool) :
    Nat → List (List String) → Bool × List (List String × Bool)
  | _, [] => (true, [])
  | i, b :: bs =>
    if req i b then
      let p := addBatches req (i + 1) bs
      (p.1, (b, true) :: p.2)
    else (false, [(b, false)])

/-- `SpotifyManager.add_tracks_to_playlist`: batches of 100, submitted in
order, stopping at the first failed request; `True` iff all succeeded. -/
def addTracksToPlaylist (req : Nat → List String → Bool) (trackUris : List String) :
    Bool × List (List String × Bool) :=
  addBatches req 0 (chunks100 trackUris)

/-! ### Helper lemmas -/

theorem isSome_false_eq_none {α : Type} {o : Option α} (h : o.isSome = false) : o = none := by
  cases o with
  | none => rfl
  | some a => simp at h

theorem dotPlusOk_ne_nil {l : List Char} (h : dotPlusOk l = true) : l ≠ [] := by
  intro he
  subst he
  simp [dotPlusOk] at h

theorem starTail_ne_nil : ∀ (t : List Char) (k : Nat) (b : List Char),
    starTail t k = some b → b ≠ [] := by
  intro t k
  induction k with
  | zero =>
    intro b hb
    by_cases h : dotPlusOk t = true
    · simp [starTail, h] at hb
      exact hb ▸ dotPlusOk_ne_nil h
    · simp [starTail, h] at hb
  | succ k ih =>
    intro b hb
    by_cases h : dotPlusOk (t.drop (k + 1)) = true
    · simp [starTail, h] at hb
      exact hb ▸ dotPlusOk_ne_nil h
    · simp [starTail, h] at hb
      exact ih b hb

theorem plusTailGo_ne_nil : ∀ (t : List Char) (k : Nat) (b : List Char),
    plusTailGo t k = some b → b ≠ [] := by
  intro t k
  induction k with
  | zero => intro b hb; simp [plusTailGo] at hb
  | succ k ih =>
    intro b hb
    by_cases h : dotPlusOk (t.drop (k + 1)) = true
    · simp [plusTailGo, h] at hb
      exact hb ▸ dotPlusOk_ne_nil h
    · simp [plusTailGo, h] at hb
      exact ih b hb

theorem sepTail_ne_nil {sep : Char} {rest b : List Char}
    (h : sepTail sep rest = some b) : b ≠ [] := by
  unfold sepTail at h
  revert h
  cases rest.dropWhile isPySpace with
  | nil => intro h; simp at h
  | cons c t =>
    intro h
    by_cases hc : c = sep
    · simp [hc] at h
      exact starTail_ne_nil t _ b h
    · simp [hc] at h

theorem plusTail_ne_nil {t b : List Char} (h : plusTail t = some b) : b ≠ [] := by
  unfold plusTail at h
  by_cases hk : (t.takeWhile isPySpace).length = 0
  · simp [hk] at h
  · simp [hk] at h
    exact plusTailGo_ne_nil t _ b h

theorem byTail_ne_nil {rest b : List Char} (h : byTail rest = some b) : b ≠ [] := by
  unfold byTail at h
  by_cases hw : (rest.takeWhile isPySpace).isEmpty = true
  · simp [hw] at h
  · simp [hw] at h
    revert h
    cases rest.drop (rest.takeWhile isPySpace).length with
    | nil => intro h; simp at h
    | cons x xs =>
      cases xs with
      | nil => intro h; simp at h
      | cons y ys =>
        intro h
        have h2 : (if x.toLower = 'b' ∧ y.toLower = 'y' then plusTail ys else none) = some b := h
        by_cases hxy : x.toLower = 'b' ∧ y.toLower = 'y'
        · rw [if_pos hxy] at h2
          exact plusTail_ne_nil h2
        · rw [if_neg hxy] at h2
          simp at h2

theorem quoteTail_ne_nil {rest b : List Char} (h : quoteTail rest = some b) : b ≠ [] := by
  unfold quoteTail at h
  revert h
  cases rest.dropWhile isPySpace with
  | nil => intro h; simp at h
  | cons c t =>
    intro h
    by_cases hc : isOpenQuote c = true
    · simp only [hc, if_pos] at h
      revert h
      cases t.getLast? with
      | none => intro h; simp at h
      | some lastc =>
        intro h
        by_cases hl : (isCloseQuote lastc && dotPlusOk t.dropLast) = true
        · simp only [hl, if_pos, Option.some.injEq] at h
          have := (Bool.and_eq_true _ _).mp hl
          exact h ▸ dotPlusOk_ne_nil this.2
        · simp only [hl] at h
          simp at h
    · simp [hc] at h

theorem groupSplitGo_ne_nil {tailFn : List Char → Option (List Char)}
    (hne : ∀ r b, tailFn r = some b → b ≠ []) :
    ∀ (s acc a b : List Char), groupSplitGo tailFn acc s = some (a, b) →
      a ≠ [] ∧ b ≠ [] := by
  intro s
  induction s with
  | nil => intro acc a b h; simp [groupSplitGo] at h
  | cons c rest ih =>
    intro acc a b h
    by_cases hc : c = '\n'
    · simp [groupSplitGo, hc] at h
    · simp only [groupSplitGo, hc, if_neg, ite_false] at h
      revert h
      cases htf : tailFn rest with
      | some b0 =>
        intro h
        simp only [Option.some.injEq, Prod.mk.injEq] at h
        refine ⟨h.1 ▸ (by simp), h.2 ▸ hne rest b0 htf⟩
      | none =>
        intro h
        exact ih (acc ++ [c]) a b h

theorem dropWhile_head_false {p : Char → Bool} {y : List Char}
    (h : List.dropWhile p y = y) :
    ∀ a t, y = a :: t → p a = false := by
  intro a t hy
  subst hy
  by_cases hpa : p a = true
  · rw [List.dropWhile_cons, if_pos hpa] at h
    have hl := (List.dropWhile_suffix (l := t) p).sublist.length_le
    rw [h] at hl
    simp at hl
  · simpa using hpa

theorem stripL_eq_rdrop (l : List Char) :
    stripL l = List.rdropWhile isPySpace (List.dropWhile isPySpace l) := rfl

theorem stripL_idem (l : List Char) : stripL (stripL l) = stripL l := by
  rw [stripL_eq_rdrop, stripL_eq_rdrop]
  have hinner : List.dropWhile isPySpace
      (List.rdropWhile isPySpace (List.dropWhile isPySpace l)) =
      List.rdropWhile isPySpace (List.dropWhile isPySpace l) := by
    set y := List.dropWhile isPySpace l with hy
    have hyy : List.dropWhile isPySpace y = y := by
      rw [hy]
      exact List.dropWhile_idempotent isPySpace l
    rcases hr : List.rdropWhile isPySpace y with _ | ⟨a, t⟩
    · simp
    · obtain ⟨s, hs⟩ := List.rdropWhile_prefix isPySpace y
      rw [hr] at hs
      have ha : isPySpace a = false := by
        apply dropWhile_head_false hyy a (t ++ s)
        rw [← hs]
        simp
    
      rw [List.dropWhile_cons, ha]
      simp
  rw [hinner]
  exact List.rdropWhile_idempotent isPySpace _

theorem stripSuffix1_noop {c suf : List Char}
    (h1 : endsWithL c (' ' :: suf) = false) (h2 : endsWithL c suf = false) :
    stripSuffix1 c suf = c := by
  unfold stripSuffix1
  rw [h1, h2]
  simp

theorem foldl_stripSuffix1_noop : ∀ (L : List (List Char)) (s : List Char),
    (∀ suf ∈ L, endsWithL s (' ' :: suf) = false ∧ endsWithL s suf = false) →
    L.foldl stripSuffix1 s = s := by
  intro L
  induction L with
  | nil => intro s _; rfl
  | cons suf L ih =>
    intro s h
    have hs := h suf (by simp)
    simp only [List.foldl_cons]
    rw [stripSuffix1_noop hs.1 hs.2]
    exact ih s (fun x hx => h x (by simp [hx]))

theorem searchTrack_none {sq : String → Option SpotifyTrack}
    (hq : ∀ q, sq q = none) (artist title : String) :
    searchTrack sq artist title = none := by
  unfold searchTrack
  simp [hq]

theorem enhancedSpotifySearch_none {sq : String → Option SpotifyTrack}
    (hq : ∀ q, sq q = none) (artist title channel : String) :
    enhancedSpotifySearch sq artist title channel = none := by
  unfold enhancedSpotifySearch
  simp [searchTrack_none hq]

theorem tallySong_counts (s : Song) (st : MigrationStats) :
    (tallySong st s).successful_matches + (tallySong st s).errors +
        (tallySong st s).not_found =
      st.successful_matches + st.errors + st.not_found + 1 ∧
    (tallySong st s).total_songs = st.total_songs := by
  unfold tallySong
  by_cases hf : s.found = true
  · simp [hf]
    omega
  · simp only [hf]
    by_cases he : s.error ≠ ""
    · simp [he]
      omega
    · simp [he]
      omega

theorem foldl_tallySong_counts : ∀ (songs : List Song) (st : MigrationStats),
    (songs.foldl tallySong st).successful_matches + (songs.foldl tallySong st).errors +
        (songs.foldl tallySong st).not_found =
      st.successful_matches + st.errors + st.not_found + songs.length ∧
    (songs.foldl tallySong st).total_songs = st.total_songs := by
  intro songs
  induction songs with
  | nil => intro st; simp
  | cons s songs ih =>
    intro st
    simp only [List.foldl_cons, List.length_cons]
    have h1 := tallySong_counts s st
    have h2 := ih (tallySong st s)
    refine ⟨?_, h2.2.trans h1.2⟩
    rw [h2.1, h1.1]
    omega

theorem addBatches_prefix (req : Nat → List String → Bool) :
    ∀ (bs : List (List String)) (i : Nat),
      ((addBatches req i bs).2.map Prod.fst) <+: bs := by
  intro bs
  induction bs with
  | nil => intro i; simp [addBatches]
  | cons b bs ih =>
    intro i
    by_cases hr : req i b = true
    · simp only [addBatches, hr, if_pos]
      simpa using ih (i + 1)
    · simp only [addBatches, hr]
      simp

theorem addBatches_true (req : Nat → List String → Bool) :
    ∀ (bs : List (List String)) (i : Nat), (addBatches req i bs).1 = true →
      ((addBatches req i bs).2.map Prod.fst) = bs ∧
      ∀ pr ∈ (addBatches req i bs).2, pr.2 = true := by
  intro bs
  induction bs with
  | nil => intro i _; simp [addBatches]
  | cons b bs ih =>
    intro i h
    by_cases hr : req i b = true
    · simp only [addBatches, hr, if_pos] at h ⊢
      have := ih (i + 1) h
      constructor
      · simpa using this.1
      · intro pr hpr
        rcases List.mem_cons.mp hpr with h1 | h1
        · rw [h1]
        · exact this.2 pr h1
    · simp only [addBatches, hr] at h
      simp at h

theorem addBatches_false (req : Nat → List String → Bool) :
    ∀ (bs : List (List String)) (i : Nat), (addBatches req i bs).1 = false →
      ∃ pre lastBatch, (addBatches req i bs).2 = pre ++ [(lastBatch, false)] ∧
        ∀ pr ∈ pre, pr.2 = true := by
  intro bs
  induction bs with
  | nil => intro i h; simp [addBatches] at h
  | cons b bs ih =>
    intro i h
    by_cases hr : req i b = true
    · simp only [addBatches, hr, if_pos] at h ⊢
      obtain ⟨pre, lastBatch, heq, hpre⟩ := ih (i + 1) h
      refine ⟨(b, true) :: pre, lastBatch, by simp [heq], ?_⟩
      intro pr hpr
      rcases List.mem_cons.mp hpr with h1 | h1
      · rw [h1]
      · exact hpre pr h1
    · simp only [addBatches, hr]
      exact ⟨[], b, by simp, by simp⟩

theorem chunks100Go_join : ∀ (fuel : Nat) (l : List String), l.length ≤ fuel →
    (chunks100Go fuel l).flatten = l := by
  intro fuel
  induction fuel with
  | zero =>
    intro l hl
    have : l = [] := List.length_eq_zero.mp (Nat.le_zero.mp hl)
    subst this
    rfl
  | succ fuel ih =>
    intro l hl
    cases l with
    | nil => rfl
    | cons u rest =>
      simp only [chunks100Go, List.flatten_cons]
      rw [ih ((u :: rest).drop 100) (by simp at hl ⊢; omega)]
      exact List.take_append_drop 100 (u :: rest)

theorem chunks100Go_mem : ∀ (fuel : Nat) (l : List String),
    ∀ b ∈ chunks100Go fuel l, b ≠ [] ∧ b.length ≤ 100 := by
  intro fuel
  induction fuel with
  | zero => intro l b hb; simp [chunks100Go] at hb
  | succ fuel ih =>
    intro l b hb
    cases l with
    | nil => simp [chunks100Go] at hb
    | cons u rest =>
      simp only [chunks100Go, List.mem_cons] at hb
      rcases hb with hb | hb
      · subst hb
        constructor
        · intro he
          have := congrArg List.length he
          simp [List.length_take] at this
        · simp [List.length_take]
      · exact ih _ b hb

theorem flatten_prefix_of_prefix {l1 l2 : List (List String)} (h : l1 <+: l2) :
    l1.flatten <+: l2.flatten := by
  obtain ⟨t, ht⟩ := h
  refine ⟨t.flatten, ?_⟩
  rw [← List.flatten_append, ht]

/-! ### Claim theorems -/

/-- C2 (counterexample): the claim says a pattern match with an empty side
after trimming is rejected and parse never returns such a pair; but on the
label consisting of the letter A, a space, and a quoted single space, the
quoted pattern matches with a whitespace-only title group and `parse_title`
returns it stripped to the empty string. -/
theorem claim_C2_counterexample :
    parseTitle "A \" \"" = ("A", "") ∧ (parseTitle "A \" \"").1 ≠ "" := by
  decide

/-- C2 (amended): every pattern's raw captured groups contain at least one
character (the regexes use one-or-more quantifiers), but the captures are
stripped afterwards with no non-emptiness recheck, so a whitespace-only
capture yields an empty side of the returned pair. -/
theorem claim_C2_amended :
    (∀ (sep : Char) (s a b : List Char), sepSplit sep s = some (a, b) → a ≠ [] ∧ b ≠ []) ∧
    (∀ (s a b : List Char), bySplit s = some (a, b) → a ≠ [] ∧ b ≠ []) ∧
    (∀ (s a b : List Char), quoteSplit s = some (a, b) → a ≠ [] ∧ b ≠ []) := by
  refine ⟨?_, ?_, ?_⟩
  · intro sep s a b h
    exact groupSplitGo_ne_nil (fun r b0 hb => sepTail_ne_nil hb) s [] a b h
  · intro s a b h
    exact groupSplitGo_ne_nil (fun r b0 hb => byTail_ne_nil hb) s [] a b h
  · intro s a b h
    exact groupSplitGo_ne_nil (fun r b0 hb => quoteTail_ne_nil hb) s [] a b h

/-- C2 (witness): the hyphen pattern on a concrete label captures the two
nonempty raw groups. -/
theorem claim_C2_witness : "a".data ≠ [] ∧ "b".data ≠ [] :=
  claim_C2_amended.1 '-' "a - b".data "a".data "b".data (by decide)

/-- C3 (counterexample): the claim says the parsed title is nonempty for
every nonempty label, even for labels that are only bracketed decoration;
but cleaning erases a purely bracketed label completely and the fallback
then returns an empty title. -/
theorem claim_C3_counterexample :
    parseTitle "[Official Video]" = ("", "") ∧ ("[Official Video]" : String) ≠ "" := by
  decide

/-- C3 (amended): when no separator pattern matches the cleaned label, the
whole cleaned label becomes the title (with an empty artist), so the title
is nonempty exactly when the CLEANED label is nonempty; labels consisting
only of bracketed or parenthesized decoration clean to the empty string and
therefore get an empty title. -/
theorem claim_C3_amended : ∀ (label : String),
    anyPatternMatches (cleanText label.data) = false →
    parseTitle label = ("", String.mk (cleanText label.data)) ∧
    (cleanText label.data ≠ [] → (parseTitle label).2 ≠ "") := by
  intro label h
  simp only [anyPatternMatches, Bool.or_eq_false_iff] at h
  obtain ⟨⟨⟨⟨h1, h2⟩, h3⟩, h4⟩, h5⟩ := h
  have e1 := isSome_false_eq_none h1
  have e2 := isSome_false_eq_none h2
  have e3 := isSome_false_eq_none h3
  have e4 := isSome_false_eq_none h4
  have e5 := isSome_false_eq_none h5
  have hp : parseTitle label = ("", String.mk (cleanText label.data)) := by
    unfold parseTitle parseTitleL
    simp only [e1, e2, e3, e4, e5]
  refine ⟨hp, fun hne hcontra => ?_⟩
  rw [hp] at hcontra
  exact hne (congrArg String.data hcontra)

/-- C3 (witness): a plain one-word label matches no pattern, and its parse
keeps the whole cleaned label as a nonempty title. -/
theorem claim_C3_witness :
    anyPatternMatches (cleanText "Hello".data) = false ∧
    parseTitle "Hello" = ("", "Hello") ∧ (parseTitle "Hello").2 ≠ "" := by
  have h := claim_C3_amended "Hello" (by decide)
  exact ⟨by decide, h.1.trans (by decide), h.2 (by decide)⟩

/-- C4 (counterexample): the claim says word-boundary removal takes
precedence so that a bare trailing substring such as the TV of ATV is not
stripped; but `_clean_channel_name` falls back to bare-substring stripping
and does strip it. -/
theorem claim_C4_counterexample : cleanChannelName "ATV" ≠ "ATV" := by
  decide

/-- C4 (amended): for each token the cleaner first checks the
whitespace-delimited form and otherwise strips the token as a bare trailing
substring with no word-boundary protection: both ATV and A TV clean to A. -/
theorem claim_C4_amended :
    cleanChannelName "ATV" = "A" ∧ cleanChannelName "A TV" = "A" := by
  decide

/-- C5 (counterexample): the cleaner is not idempotent — one pass over
X Official TV strips only the TV token (the Official check has already been
passed when TV is removed), and a second pass strips Official as well. -/
theorem claim_C5_counterexample :
    cleanChannelName (cleanChannelName "X Official TV") ≠ cleanChannelName "X Official TV" := by
  decide

/-- C5 (amended): the suffix loop makes a single ordered pass, so
reapplying the cleaner is a no-op exactly on channels whose cleaned output
no longer ends in any removable token (in either form); when the cleaned
output again ends in a token that precedes the one just removed, a second
application strips further. -/
theorem claim_C5_amended : ∀ (p : String),
    (∀ suf ∈ suffixesToRemove,
      endsWithL (cleanChannelName p).data (' ' :: suf) = false ∧
      endsWithL (cleanChannelName p).data suf = false) →
    cleanChannelName (cleanChannelName p) = cleanChannelName p := by
  intro p h
  have key : ∀ r : List Char,
      (∀ suf ∈ suffixesToRemove,
        endsWithL r (' ' :: suf) = false ∧ endsWithL r suf = false) →
      (∃ x : List Char, r = cleanChannelNameL x) → cleanChannelNameL r = r := by
    intro r hr hex
    obtain ⟨x, hx⟩ := hex
    by_cases hrnil : r = []
    · rw [hrnil]
      rfl
    · unfold cleanChannelNameL
      rw [if_neg hrnil, foldl_stripSuffix1_noop suffixesToRemove r hr]
      by_cases hxnil : x = []
      · exfalso
        rw [hx] at hrnil
        unfold cleanChannelNameL at hrnil
        rw [if_pos hxnil] at hrnil
        exact hrnil rfl
      · have hrs : r = stripL (suffixesToRemove.foldl stripSuffix1 x) := by
          rw [hx]
          unfold cleanChannelNameL
          rw [if_neg hxnil]
        rw [hrs, stripL_idem]
  have hinner : cleanChannelNameL (cleanChannelNameL p.data) = cleanChannelNameL p.data :=
    key (cleanChannelNameL p.data) h ⟨p.data, rfl⟩
  show String.mk (cleanChannelNameL (cleanChannelNameL p.data)) = String.mk (cleanChannelNameL p.data)
  rw [hinner]

/-- C5 (witness): a publisher whose cleaned output ends in no removable
token; the cleaner is a no-op on its own output there. -/
theorem claim_C5_witness :
    (∀ suf ∈ suffixesToRemove,
      endsWithL (cleanChannelName "Adele VEVO").data (' ' :: suf) = false ∧
      endsWithL (cleanChannelName "Adele VEVO").data suf = false) ∧
    cleanChannelName (cleanChannelName "Adele VEVO") = cleanChannelName "Adele VEVO" :=
  ⟨by decide, claim_C5_amended "Adele VEVO" (by decide)⟩

/-- C1 (counterexample): the claim says scoring uses the original parsed
artist so an empty parsed artist forces confidence 0; but for the label
Hello with channel Adele (parsed artist empty, channel substituted) and a
search hit by Adele named Hello, the recorded confidence is 1, not 0 — the
scorer receives the substituted channel artist. -/
theorem claim_C1_counterexample :
    (parseTitle "Hello").1 = "" ∧
    (processSong (fun _ => some ⟨"Adele", "Hello", "uri1"⟩) ⟨"Hello", "Adele"⟩).match_confidence = 1 ∧
    (processSong (fun _ => some ⟨"Adele", "Hello", "uri1"⟩) ⟨"Hello", "Adele"⟩).match_confidence ≠ 0 := by
  have hsearch : enhancedSpotifySearch (fun _ => some ⟨"Adele", "Hello", "uri1"⟩)
      (workingArtist ⟨"Hello", "Adele"⟩) (parsedSongTitle ⟨"Hello", "Adele"⟩)
      (VideoEntry.channel ⟨"Hello", "Adele"⟩) = some ⟨"Adele", "Hello", "uri1"⟩ := by
    decide
  have hmc : (processSong (fun _ => some ⟨"Adele", "Hello", "uri1"⟩)
      ⟨"Hello", "Adele"⟩).match_confidence =
      calculateMatchConfidence (workingArtist ⟨"Hello", "Adele"⟩)
        (parsedSongTitle ⟨"Hello", "Adele"⟩) "Adele" "Hello" := by
    unfold processSong
    simp only [hsearch]
  have hconf : calculateMatchConfidence (workingArtist ⟨"Hello", "Adele"⟩)
      (parsedSongTitle ⟨"Hello", "Adele"⟩) "Adele" "Hello" = 1 := by
    unfold calculateMatchConfidence
    rw [if_neg (by decide),
      show fuzzRatio (lowerStr (workingArtist ⟨"Hello", "Adele"⟩)) (lowerStr "Adele") = 100
        from by decide,
      show fuzzRatio (lowerStr (parsedSongTitle ⟨"Hello", "Adele"⟩)) (lowerStr "Hello") = 100
        from by decide]
    norm_num
  exact ⟨by decide, hmc.trans hconf, by rw [hmc, hconf]; norm_num⟩

/-- C1 (amended): when the search resolution returns a result, the
confidence is computed from the WORKING artist — the cleaned channel name
substituted when the parsed artist is empty — and the parsed title, against
the matched artist and title; confidence is forced to 0 only when that
working artist (or the title) is empty, not when the parsed artist is. -/
theorem claim_C1_amended :
    ∀ (sq : String → Option SpotifyTrack) (e : VideoEntry) (tr : SpotifyTrack),
    enhancedSpotifySearch sq (workingArtist e) (parsedSongTitle e) e.channel = some tr →
    (processSong sq e).match_confidence =
      calculateMatchConfidence (workingArtist e) (parsedSongTitle e) tr.artistName tr.name := by
  intro sq e tr h
  unfold processSong
  simp only [h]

/-- C1 (witness): the amended statement at the concrete counterexample
input. -/
theorem claim_C1_witness :
    (processSong (fun _ => some ⟨"Adele", "Hello", "uri1"⟩) ⟨"Hello", "Adele"⟩).match_confidence =
      calculateMatchConfidence (workingArtist ⟨"Hello", "Adele"⟩)
        (parsedSongTitle ⟨"Hello", "Adele"⟩) "Adele" "Hello" :=
  claim_C1_amended (fun _ => some ⟨"Adele", "Hello", "uri1"⟩) ⟨"Hello", "Adele"⟩
    ⟨"Adele", "Hello", "uri1"⟩ (by decide)

/-- C6 (counterexample): a one-item run whose search collaborator always
returns none leaves the not-found counter at 0 (the errors counter takes
the increment) and records a failure string different from the claimed
"no match found". -/
theorem claim_C6_counterexample :
    (runMigration (fun _ => none) [⟨"X", ""⟩]).2.not_found = 0 ∧
    (runMigration (fun _ => none) [⟨"X", ""⟩]).2.errors = 1 ∧
    (processSong (fun _ => none) ⟨"X", ""⟩).error ≠ "no match found" := by
  decide

/-- C6 (amended): when the search resolution yields no result the recorded
failure reason is exactly "No matches found on Spotify", the item is
excluded from the commit set, and the total and ERRORS counters each
increase by 1 (the not-found counter is untouched, because the statistics
branch tests the error field before the not-found fallback). -/
theorem claim_C6_amended : ∀ (e : VideoEntry) (sq : String → Option SpotifyTrack),
    (∀ q, sq q = none) →
    (processSong sq e).error = "No matches found on Spotify" ∧
    (processSong sq e).found = false ∧
    commitSet (runMigration sq [e]).1 = [] ∧
    (runMigration sq [e]).2 = ⟨1, 0, 0, 1⟩ := by
  intro e sq hq
  have hs : processSong sq e =
      { original_title := e.title, channel_name := e.channel, artist := workingArtist e,
        title := parsedSongTitle e, spotify_uri := "", match_confidence := 0,
        error := "No matches found on Spotify", found := false } := by
    unfold processSong
    simp only [enhancedSpotifySearch_none hq]
  refine ⟨by rw [hs], by rw [hs], ?_, ?_⟩
  · unfold runMigration commitSet
    simp [hs]
  · unfold runMigration
    simp only [List.map_cons, List.map_nil, List.foldl_cons, List.foldl_nil]
    rw [hs]
    unfold tallySong
    rw [if_neg (by simp),
      if_pos (show ("No matches found on Spotify" : String) ≠ "" from by decide)]
    rfl

/-- C6 (witness): the amended statement at a concrete one-entry run with an
always-empty search collaborator. -/
theorem claim_C6_witness :
    (processSong (fun _ => none) ⟨"X", ""⟩).error = "No matches found on Spotify" ∧
    (processSong (fun _ => none) ⟨"X", ""⟩).found = false ∧
    commitSet (runMigration (fun _ => none) [⟨"X", ""⟩]).1 = [] ∧
    (runMigration (fun _ => none) [⟨"X", ""⟩]).2 = ⟨1, 0, 0, 1⟩ :=
  claim_C6_amended ⟨"X", ""⟩ (fun _ => none) (fun _ => rfl)

theorem lowConfMessage_ne (q : ℚ) : lowConfMessage q ≠ "" := by
  intro h
  have h1 := congrArg String.length h
  unfold lowConfMessage at h1
  rw [String.length_append, String.length_append] at h1
  have h2 : ("Low confidence match (" : String).length = 22 := by decide
  have h3 : (")" : String).length = 1 := by decide
  have h4 : ("" : String).length = 0 := by decide
  rw [h2, h3, h4] at h1
  omega

/-- C7 (confirmed): in every completed run the three outcome counters sum
to the total counter — each processed song increments exactly one of the
successful, error, or not-found counters, and the total is fixed up front
to the number of extracted videos. -/
theorem claim_C7_sum : ∀ (sq : String → Option SpotifyTrack) (videos : List VideoEntry),
    ((runMigration sq videos).2).successful_matches + ((runMigration sq videos).2).errors +
        ((runMigration sq videos).2).not_found =
      ((runMigration sq videos).2).total_songs := by
  intro sq videos
  unfold runMigration
  have h := foldl_tallySong_counts (videos.map (processSong sq)) ⟨videos.length, 0, 0, 0⟩
  rw [h.1, h.2]
  simp

/-- C8 (confirmed): acceptance is exactly the inclusive comparison of the
confidence against the threshold, the default threshold is one half, and
the boundary behaves as claimed at 0.5 and 0.49999. -/
theorem claim_C8_threshold :
    (∀ c t : ℚ, (isGoodMatch c t = true ↔ c ≥ t)) ∧
    (∀ c : ℚ, isGoodMatchDefault c = isGoodMatch c (1 / 2)) ∧
    isGoodMatch (1 / 2) (1 / 2) = true ∧
    isGoodMatch (49999 / 100000) (1 / 2) = false := by
  refine ⟨fun c t => ?_, fun c => rfl, ?_, ?_⟩
  · unfold isGoodMatch
    exact decide_eq_true_iff
  · unfold isGoodMatch
    exact decide_eq_true (le_refl ((1 : ℚ) / 2))
  · unfold isGoodMatch
    exact decide_eq_false (by norm_num)

/-- C8 (witness): the inclusive boundary instance obtained from the main
statement. -/
theorem claim_C8_witness : isGoodMatch (1 / 2) (1 / 2) = true :=
  (claim_C8_threshold.1 (1 / 2) (1 / 2)).mpr (by norm_num)

/-- C10 (confirmed): a found-but-low-confidence match leaves the song
unaccepted with a nonempty error message, and the statistics step then
increments the errors counter (not the not-found counter) — exactly the
update an unexpected per-item exception would produce. -/
theorem claim_C10_lowConfidence :
    ∀ (sq : String → Option SpotifyTrack) (e : VideoEntry) (tr : SpotifyTrack),
    enhancedSpotifySearch sq (workingArtist e) (parsedSongTitle e) e.channel = some tr →
    calculateMatchConfidence (workingArtist e) (parsedSongTitle e) tr.artistName tr.name < 1 / 2 →
    (processSong sq e).found = false ∧ (processSong sq e).error ≠ "" ∧
    ∀ st : MigrationStats,
      tallySong st (processSong sq e) = { st with errors := st.errors + 1 } := by
  intro sq e tr h hconf
  have hfound : isGoodMatchDefault (calculateMatchConfidence (workingArtist e)
      (parsedSongTitle e) tr.artistName tr.name) = false := by
    unfold isGoodMatchDefault isGoodMatch
    rw [decide_eq_false_iff_not]
    exact not_le.mpr hconf
  have hs : processSong sq e =
      { original_title := e.title, channel_name := e.channel, artist := workingArtist e,
        title := parsedSongTitle e, spotify_uri := tr.uri,
        match_confidence := calculateMatchConfidence (workingArtist e) (parsedSongTitle e)
          tr.artistName tr.name,
        error := lowConfMessage (calculateMatchConfidence (workingArtist e) (parsedSongTitle e)
          tr.artistName tr.name),
        found := false } := by
    unfold processSong
    simp only [h, hfound]
    simp
  refine ⟨by rw [hs], by rw [hs]; exact lowConfMessage_ne _, ?_⟩
  intro st
  rw [hs]
  unfold tallySong
  rw [if_neg (by simp), if_pos (show lowConfMessage (calculateMatchConfidence (workingArtist e)
    (parsedSongTitle e) tr.artistName tr.name) ≠ "" from lowConfMessage_ne _)]

/-- C10 (witness): a concrete item whose working artist is empty, so the
scorer's guard yields confidence zero, the match is rejected, and the
statistics update increments only the errors counter. -/
theorem claim_C10_witness :
    (processSong (fun _ => some ⟨"Somebody", "Else", "u1"⟩) ⟨"Hello", ""⟩).found = false ∧
    (processSong (fun _ => some ⟨"Somebody", "Else", "u1"⟩) ⟨"Hello", ""⟩).error ≠ "" ∧
    tallySong ⟨0, 0, 0, 0⟩ (processSong (fun _ => some ⟨"Somebody", "Else", "u1"⟩) ⟨"Hello", ""⟩) =
      ⟨0, 0, 0, 1⟩ := by
  have h := claim_C10_lowConfidence (fun _ => some ⟨"Somebody", "Else", "u1"⟩) ⟨"Hello", ""⟩
    ⟨"Somebody", "Else", "u1"⟩ (by decide)
    (by
      have hw : workingArtist ⟨"Hello", ""⟩ = "" := by decide
      unfold calculateMatchConfidence
      rw [if_pos (Or.inl hw)]
      norm_num)
  exact ⟨h.1, h.2.1, h.2.2 ⟨0, 0, 0, 0⟩⟩

/-- C9 (confirmed): the playlist insertion partitions the URI list into
consecutive batches of at most 100, submits them in order, stops at the
first failing request (reporting false), reports true only when every
submitted batch succeeded, and the concatenation of the submitted batches
is a prefix of the input — the whole input when the result is true. -/
theorem claim_C9_batching : ∀ (req : Nat → List String → Bool) (uris : List String),
    (∀ b ∈ (addTracksToPlaylist req uris).2.map Prod.fst, b ≠ [] ∧ b.length ≤ 100) ∧
    ((addTracksToPlaylist req uris).2.map Prod.fst) <+: chunks100 uris ∧
    ((addTracksToPlaylist req uris).2.map Prod.fst).flatten <+: uris ∧
    ((addTracksToPlaylist req uris).1 = true →
      ((addTracksToPlaylist req uris).2.map Prod.fst) = chunks100 uris ∧
      ((addTracksToPlaylist req uris).2.map Prod.fst).flatten = uris ∧
      ∀ pr ∈ (addTracksToPlaylist req uris).2, pr.2 = true) ∧
    ((addTracksToPlaylist req uris).1 = false →
      ∃ pre lastBatch, (addTracksToPlaylist req uris).2 = pre ++ [(lastBatch, false)] ∧
        ∀ pr ∈ pre, pr.2 = true) := by
  intro req uris
  unfold addTracksToPlaylist
  have hjoin : (chunks100 uris).flatten = uris :=
    chunks100Go_join uris.length uris (le_refl _)
  have hpre : ((addBatches req 0 (chunks100 uris)).2.map Prod.fst) <+: chunks100 uris :=
    addBatches_prefix req (chunks100 uris) 0
  refine ⟨?_, hpre, ?_, ?_, ?_⟩
  · intro b hb
    exact chunks100Go_mem uris.length uris b (hpre.sublist.subset hb)
  · have := flatten_prefix_of_prefix hpre
    rwa [hjoin] at this
  · intro hok
    have h := addBatches_true req (chunks100 uris) 0 hok
    exact ⟨h.1, by rw [h.1, hjoin], h.2⟩
  · intro hko
    exact addBatches_false req (chunks100 uris) 0 hko

/-- C9 (witness): a single one-element batch submitted by an always-true
request collaborator succeeds and covers the whole input. -/
theorem claim_C9_witness :
    (addTracksToPlaylist (fun _ _ => true) ["a"]).1 = true ∧
    ((addTracksToPlaylist (fun _ _ => true) ["a"]).2.map Prod.fst).flatten = ["a"] :=
  ⟨by decide, ((claim_C9_batching (fun _ _ => true) ["a"]).2.2.2.1 (by decide)).2.1⟩
